import Mathlib

/-!
Verification of the cooperative cancellation primitive of the `multicore` library
(`src/multicore/stop_token.cpp`, `include/multicore/stop_token.hpp`).

The C++ code is embedded as a sequential (single-threaded) state machine:

* `mtc.inplace_stop_source` carries the fields of the C++ class that the sequential
  behaviour depends on: the packed atomic `state` word (bit 1 = stop requested,
  bit 2 = spinlock held) and the intrusive `callbacks` list, represented as the
  list of callback-node identifiers ordered from head (most recently registered)
  to tail.  Intrusive-pointer manipulations become list operations: prepending in
  `try_add_callback`, `List.erase` for the O(1) unlink via `previous_pointer` in
  `remove_callback` (membership in the list models `previous_pointer != nullptr`),
  popping the head in the `request_stop` broadcast loop.

* Operations that would spin forever in a single-threaded execution (acquiring a
  lock that is already held) return `none`; every scenario below starts from an
  unlocked state, so `none` never arises there.

* The `request_stop` broadcast loop additionally produces a trace of `mtc.Ev`
  events mirroring its atomic operations line by line (the `state.store` that
  releases the lock before invoking, the invocation itself, the `completed`
  store, and the `lock()` re-acquisition), so that properties about the state
  word at the moment of each callback invocation can be stated.

* `mtc.spinloop` embeds `detail::spinloop` with its `uint32_t` counter
  (arithmetic modulo 2^32) and `wait` returns whether `std::this_thread::yield()`
  was called.
-/

namespace mtc

/-- Flag bit (value 1) set in the state word once a stop has been requested
(`stop_requested_flag`, stop_token.cpp line 72). -/
def stop_requested_flag : Nat := 1

/-- Flag bit (value 2) held in the state word while the callback-list spinlock is
taken (`locked_flag`, stop_token.cpp line 73). -/
def locked_flag : Nat := 2

/-- Modulus of the `uint32_t` counter of `detail::spinloop`. -/
def uint32_mod : Nat := 2 ^ 32

/-- detail::spinloop (stop_token.cpp lines 37-50): a bounded busy-wait helper with
a `uint32_t` call counter, default-initialised to 0. -/
structure spinloop where
  count : Nat
deriving DecidableEq

/-- Threshold of 20 pure busy-wait calls (`yield_threshold`, stop_token.cpp line 40). -/
def spinloop.yield_threshold : Nat := 20

/-- detail::spinloop::wait (stop_token.cpp lines 43-49).  The counter is
post-incremented modulo 2^32; while its old value is below the threshold nothing
happens, otherwise (after resetting the counter to the threshold should the
increment have wrapped to 0) `std::this_thread::yield()` is called.  Returns the
updated spinloop and whether a yield happened. -/
def spinloop.wait (s : spinloop) : spinloop × Bool :=
  let old := s.count
  let incremented := (s.count + 1) % uint32_mod
  if old < spinloop.yield_threshold then
    ({ count := incremented }, false)
  else
    ({ count := if incremented = 0 then spinloop.yield_threshold else incremented }, true)

/-- State of a default-initialised `detail::spinloop` after `n` calls to `wait()`. -/
def iterateWait : Nat → spinloop
  | 0 => { count := 0 }
  | n + 1 => ((iterateWait n).wait).1

/-- The mutable fields of `inplace_stop_source` that its sequential behaviour
depends on (stop_token.hpp lines 173-175): the packed `state` word and the
intrusive `callbacks` list, head first, with each callback node denoted by a
natural-number identifier.  (`notifying` only matters for cross-thread removal
during a concurrent broadcast and plays no role in the sequential semantics.) -/
structure inplace_stop_source where
  state : Nat
  callbacks : List Nat
deriving DecidableEq

/-- A default-constructed source: `state = 0`, empty callback list
(stop_token.hpp lines 173-175 default member initialisers). -/
def inplace_stop_source.init : inplace_stop_source := { state := 0, callbacks := [] }

/-- inplace_stop_source::stop_requested (stop_token.cpp lines 110-112). -/
def inplace_stop_source.stop_requested (s : inplace_stop_source) : Bool :=
  s.state &&& stop_requested_flag != 0

/-- inplace_stop_source::try_lock (stop_token.cpp lines 128-142) in a
single-threaded execution: if the requested flag is set, fail immediately with
`false`; if the word is 0 the compare-and-swap installs the lock bit (plus the
requested flag when `set_requested` is true) and the call returns `true`; if the
lock bit is held the code would spin forever, modelled as `none`. -/
def inplace_stop_source.try_lock (s : inplace_stop_source) (set_requested : Bool) :
    Option (inplace_stop_source × Bool) :=
  if s.state &&& stop_requested_flag ≠ 0 then
    some (s, false)
  else if s.state = 0 then
    some ({ s with
            state := if set_requested then locked_flag ||| stop_requested_flag else locked_flag },
          true)
  else
    none

/-- inplace_stop_source::lock (stop_token.cpp lines 114-124): spin until the lock
bit clears (never, sequentially: `none`), then install it, returning the previous
word. -/
def inplace_stop_source.lock (s : inplace_stop_source) :
    Option (Nat × inplace_stop_source) :=
  if s.state &&& locked_flag ≠ 0 then none
  else some (s.state, { s with state := s.state ||| locked_flag })

/-- inplace_stop_source::unlock (stop_token.cpp line 126): store `old` into the
state word. -/
def inplace_stop_source.unlock (s : inplace_stop_source) (old : Nat) : inplace_stop_source :=
  { s with state := old }

/-- inplace_stop_source::try_add_callback (stop_token.cpp lines 144-153):
`try_lock(false)`; on success prepend the node to the head of the intrusive list
and `unlock(0)`. -/
def inplace_stop_source.try_add_callback (s : inplace_stop_source) (id : Nat) :
    Option (inplace_stop_source × Bool) :=
  match s.try_lock false with
  | none => none
  | some (s₁, false) => some (s₁, false)
  | some (s₁, true) =>
      some (inplace_stop_source.unlock { s₁ with callbacks := id :: s₁.callbacks } 0, true)

/-- inplace_stop_source::remove_callback (stop_token.cpp lines 155-171).
`id ∈ callbacks` models `previous_pointer != nullptr` (the node is still
linked); in that case the node is unlinked through its `previous_pointer` slot
and the lock released.  In the other branch (node already popped by a
broadcast) the lock is released and the code only coordinates with a concurrent
notifier (same-thread flagging or waiting on `completed`), mutating neither the
list nor the state word. -/
def inplace_stop_source.remove_callback (s : inplace_stop_source) (id : Nat) :
    Option inplace_stop_source :=
  match s.lock with
  | none => none
  | some (old, s₁) =>
      if id ∈ s₁.callbacks then
        some (inplace_stop_source.unlock { s₁ with callbacks := s₁.callbacks.erase id } old)
      else
        some (inplace_stop_source.unlock s₁ old)

/-- Atomic state-word events of the `request_stop` broadcast loop
(stop_token.cpp lines 87-106). -/
inductive Ev where
  /-- `state.store(v)` (lines 93 and 106). -/
  | store (v : Nat)
  /-- `callback->invoke()` (line 96). -/
  | invoke (id : Nat)
  /-- `callback->completed.store(true)` (line 100). -/
  | completed (id : Nat)
  /-- `(void)lock()` re-acquisition (line 103). -/
  | lockAcq
deriving DecidableEq

/-- Effect of one event on the state word. -/
def applyEv (w : Nat) : Ev → Nat
  | .store v => v
  | .invoke _ => w
  | .completed _ => w
  | .lockAcq => w ||| locked_flag

/-- Event trace of the broadcast loop of `request_stop` (stop_token.cpp lines
87-106) over a callback list: each iteration pops the head node, stores
`stop_requested_flag` (releasing the lock, line 93), invokes the node (line 96),
stores its `completed` flag (line 100) and re-acquires the lock (line 103); once
the list is empty a final `state.store(stop_requested_flag)` runs (line 106). -/
def broadcastEvents : List Nat → List Ev
  | [] => [Ev.store stop_requested_flag]
  | c :: rest =>
      Ev.store stop_requested_flag :: Ev.invoke c :: Ev.completed c :: Ev.lockAcq ::
        broadcastEvents rest

/-- inplace_stop_source::request_stop (stop_token.cpp lines 82-108):
`try_lock(true)`; on failure return `false` having done nothing; on success run
the broadcast loop, which empties the callback list and leaves the state word as
the fold of the emitted events over the post-acquisition word.  Returns the new
source, the boolean result, and the event trace. -/
def inplace_stop_source.request_stop (s : inplace_stop_source) :
    Option (inplace_stop_source × Bool × List Ev) :=
  match s.try_lock true with
  | none => none
  | some (s₁, false) => some (s₁, false, [])
  | some (s₁, true) =>
      let evs := broadcastEvents s₁.callbacks
      some ({ state := List.foldl applyEv s₁.state evs, callbacks := [] }, true, evs)

/-- Conditions of the two assertions in inplace_stop_source::~inplace_stop_source
(stop_token.cpp lines 76-77): the lock bit is clear and the callback list is
empty. -/
def inplace_stop_source.destructor_asserts (s : inplace_stop_source) : Bool :=
  (s.state &&& locked_flag == 0) && (s.callbacks == [])

/-- inplace_stop_token::stop_requested (stop_token.cpp line 188):
`source != nullptr && source->stop_requested()`.  `assoc` models
`source != nullptr`; `s` is the current state of the pointed-to source. -/
def inplace_stop_token.stop_requested (assoc : Bool) (s : inplace_stop_source) : Bool :=
  assoc && s.stop_requested

/-- inplace_stop_token::stop_possible (stop_token.cpp line 189):
`source != nullptr && !source->stop_requested()`. -/
def inplace_stop_token.stop_possible (assoc : Bool) (s : inplace_stop_source) : Bool :=
  assoc && !s.stop_requested

/-- The inplace_stop_callback constructor (stop_token.hpp lines 230-233) followed
by detail::inplace_stop_callback_base::register_callback (stop_token.cpp lines
59-66): with a null token source nothing happens; otherwise `try_add_callback`
is attempted, and on failure the node's source pointer is cleared and the
trampoline invoked inline.  Returns the source state, whether the node's source
pointer is still set, and the list of inline invocations performed. -/
def register_callback (assoc : Bool) (id : Nat) (s : inplace_stop_source) :
    Option (inplace_stop_source × Bool × List Nat) :=
  if assoc then
    match s.try_add_callback id with
    | none => none
    | some (s₁, true) => some (s₁, true, [])
    | some (s₁, false) => some (s₁, false, [id])
  else some (s, false, [])

/-- inplace_stop_callback::~inplace_stop_callback (stop_token.hpp lines 235-237):
if the node's source pointer is still set, call `remove_callback`; otherwise do
nothing.  The destructor never invokes the closure. -/
def callback_destructor (has_source : Bool) (id : Nat) (s : inplace_stop_source) :
    Option inplace_stop_source :=
  if has_source then s.remove_callback id else some s

/-- Register a sequence of callback nodes, in order, via `try_add_callback`. -/
def registerAll (s : inplace_stop_source) : List Nat → Option inplace_stop_source
  | [] => some s
  | id :: rest =>
      match s.try_add_callback id with
      | none => none
      | some (s₁, _) => registerAll s₁ rest

/-- Destroy a sequence of registered callbacks, in order, via the callback
destructor of nodes whose source pointer is still set. -/
def destroyAll (s : inplace_stop_source) : List Nat → Option inplace_stop_source
  | [] => some s
  | id :: rest =>
      match callback_destructor true id s with
      | none => none
      | some s₁ => destroyAll s₁ rest

/-- Callback identifiers invoked in a trace, in invocation order. -/
def invokedList (evs : List Ev) : List Nat :=
  evs.filterMap fun e => match e with | Ev.invoke id => some id | _ => none

/-- State word in effect immediately before the `i`-th event of a trace that
starts from word `w₀`. -/
def wordAt (w₀ : Nat) (evs : List Ev) (i : Nat) : Nat :=
  List.foldl applyEv w₀ (evs.take i)

/-! Helper lemmas. -/

/-- Registering a list of nodes on an unlocked, not-stopped source always
succeeds and prepends them one by one. -/
theorem registerAll_eq (regs : List Nat) :
    ∀ cbs : List Nat, registerAll { state := 0, callbacks := cbs } regs =
      some { state := 0, callbacks := regs.reverse ++ cbs } := by
  induction regs with
  | nil => intro cbs; simp [registerAll]
  | cons id rest ih =>
      intro cbs
      simp [registerAll, inplace_stop_source.try_add_callback, inplace_stop_source.try_lock,
            inplace_stop_source.unlock, stop_requested_flag, locked_flag, ih]

/-- The broadcast trace always ends by storing exactly `stop_requested_flag`. -/
theorem foldl_applyEv_broadcast (cbs : List Nat) :
    ∀ w : Nat, List.foldl applyEv w (broadcastEvents cbs) = stop_requested_flag := by
  induction cbs with
  | nil => intro w; simp [broadcastEvents, applyEv]
  | cons c rest ih => intro w; simp [broadcastEvents, applyEv, ih]

/-- The broadcast invokes exactly the nodes of the callback list, head first. -/
theorem invokedList_broadcast (cbs : List Nat) :
    invokedList (broadcastEvents cbs) = cbs := by
  induction cbs with
  | nil => rfl
  | cons c rest ih => simpa [broadcastEvents, invokedList] using ih

/-- On an unlocked, not-stopped source, `request_stop` succeeds, empties the
callback list, leaves the word at `stop_requested_flag`, and its trace is the
broadcast trace of the prior list. -/
theorem request_stop_of_state_zero (s : inplace_stop_source) (h : s.state = 0) :
    s.request_stop =
      some ({ state := stop_requested_flag, callbacks := [] }, true,
        broadcastEvents s.callbacks) := by
  obtain ⟨st, cbs⟩ := s
  simp only at h
  subst h
  simp [inplace_stop_source.request_stop, inplace_stop_source.try_lock,
        stop_requested_flag, locked_flag, foldl_applyEv_broadcast]

/-- Once stop has been requested, `request_stop` is a no-op returning `false`. -/
theorem request_stop_of_requested (s : inplace_stop_source) (h : s.stop_requested = true) :
    s.request_stop = some (s, false, []) := by
  have h' : ¬(s.state &&& stop_requested_flag = 0) := by
    simpa [inplace_stop_source.stop_requested] using h
  simp [inplace_stop_source.request_stop, inplace_stop_source.try_lock, h']

/-- A successful `request_stop` only happens from word 0, and its trace is the
broadcast trace of the prior callback list. -/
theorem request_stop_success_trace (s s' : inplace_stop_source) (evs : List Ev)
    (h : s.request_stop = some (s', true, evs)) :
    evs = broadcastEvents s.callbacks := by
  by_cases h0 : s.state &&& stop_requested_flag = 0
  · by_cases h1 : s.state = 0
    · rw [request_stop_of_state_zero s h1] at h
      simp only [Option.some.injEq, Prod.mk.injEq] at h
      exact h.2.2.symm
    · simp [inplace_stop_source.request_stop, inplace_stop_source.try_lock, h0, h1] at h
  · simp [inplace_stop_source.request_stop, inplace_stop_source.try_lock, h0] at h

/-- Removing a node from an unlocked source erases it from the list and leaves
the word unchanged. -/
theorem remove_callback_of_unlocked (s : inplace_stop_source) (id : Nat)
    (h : s.state &&& locked_flag = 0) :
    s.remove_callback id = some { s with callbacks := s.callbacks.erase id } := by
  by_cases hm : id ∈ s.callbacks
  · simp [inplace_stop_source.remove_callback, inplace_stop_source.lock,
          inplace_stop_source.unlock, h, hm]
  · simp [inplace_stop_source.remove_callback, inplace_stop_source.lock,
          inplace_stop_source.unlock, h, hm, List.erase_of_not_mem hm]

/-- Destroying a list of registered nodes from an unlocked, not-stopped source
erases them one by one. -/
theorem destroyAll_eq (ds : List Nat) :
    ∀ cbs : List Nat, destroyAll { state := 0, callbacks := cbs } ds =
      some { state := 0, callbacks := List.foldl List.erase cbs ds } := by
  induction ds with
  | nil => intro cbs; simp [destroyAll]
  | cons d rest ih =>
      intro cbs
      have hrm := remove_callback_of_unlocked { state := 0, callbacks := cbs } d
        (by simp [locked_flag])
      simp [destroyAll, callback_destructor, hrm, ih]

/-- Erasing, one by one, all the elements of a permutation of a duplicate-free
list empties it. -/
theorem foldl_erase_of_perm (ds : List Nat) :
    ∀ l : List Nat, l.Nodup → ds.Perm l → List.foldl List.erase l ds = [] := by
  induction ds with
  | nil =>
      intro l _ hp
      simpa using hp.symm.eq_nil
  | cons d rest ih =>
      intro l hnd hp
      obtain ⟨hdl, hrest⟩ := (List.cons_perm_iff_perm_erase).1 hp
      simpa using ih (l.erase d) (hnd.erase d) hrest

/-- In the broadcast trace, every `invoke` event happens at word
`stop_requested_flag` (starting from the post-acquisition word
`locked_flag ||| stop_requested_flag`), and is followed by the `completed`
store and only then by the lock re-acquisition. -/
theorem broadcast_invoke_unlocked (cbs : List Nat) :
    ∀ i c, (broadcastEvents cbs).get? i = some (Ev.invoke c) →
      wordAt (locked_flag ||| stop_requested_flag) (broadcastEvents cbs) i =
          stop_requested_flag ∧
        (broadcastEvents cbs).get? (i + 1) = some (Ev.completed c) ∧
        (broadcastEvents cbs).get? (i + 2) = some Ev.lockAcq := by
  induction cbs with
  | nil =>
      intro i c h
      match i with
      | 0 => simp [broadcastEvents] at h
      | j + 1 => simp [broadcastEvents] at h
  | cons hd rest ih =>
      intro i c h
      match i with
      | 0 => simp [broadcastEvents] at h
      | 1 =>
          simp only [broadcastEvents, List.get?] at h
          obtain rfl : hd = c := by simpa using h
          refine ⟨?_, by simp [broadcastEvents], by simp [broadcastEvents]⟩
          simp [wordAt, broadcastEvents, applyEv, stop_requested_flag, locked_flag]
      | 2 => simp [broadcastEvents] at h
      | 3 => simp [broadcastEvents] at h
      | j + 4 =>
          have h' : (broadcastEvents rest).get? j = some (Ev.invoke c) := by
            simpa [broadcastEvents] using h
          obtain ⟨hw, hc, hl⟩ := ih j c h'
          refine ⟨?_, by simpa [broadcastEvents] using hc, by simpa [broadcastEvents] using hl⟩
          calc wordAt (locked_flag ||| stop_requested_flag) (broadcastEvents (hd :: rest))
                (j + 4)
              = wordAt (locked_flag ||| stop_requested_flag) (broadcastEvents rest) j := by
                simp [wordAt, broadcastEvents, applyEv, stop_requested_flag, locked_flag]
            _ = stop_requested_flag := hw

/-- While at most `yield_threshold` calls have happened, the counter equals the
number of calls. -/
theorem iterateWait_count_of_le (n : Nat) :
    n ≤ spinloop.yield_threshold → (iterateWait n).count = n := by
  induction n with
  | zero => intro _; rfl
  | succ m ih =>
      intro h
      have hmc := ih (Nat.le_of_succ_le h)
      have hlt : m < spinloop.yield_threshold := h
      have hmod : (m + 1) % uint32_mod = m + 1 := by
        apply Nat.mod_eq_of_lt
        have : m < 20 := by simpa [spinloop.yield_threshold] using hlt
        simp only [uint32_mod]
        omega
      simp [iterateWait, spinloop.wait, hmc, hlt, hmod]

/-- Once the counter has reached the threshold (and is a valid `uint32_t`
value), `wait` yields and the counter stays at or above the threshold. -/
theorem wait_yields_of_threshold_le (s : spinloop)
    (h1 : spinloop.yield_threshold ≤ s.count) (h2 : s.count < uint32_mod) :
    s.wait.2 = true ∧ spinloop.yield_threshold ≤ s.wait.1.count ∧
      s.wait.1.count < uint32_mod := by
  have hn : ¬ s.count < spinloop.yield_threshold := Nat.not_lt.2 h1
  rcases Nat.lt_or_ge (s.count + 1) uint32_mod with hlt | hge
  · have hmod : (s.count + 1) % uint32_mod = s.count + 1 := Nat.mod_eq_of_lt hlt
    have hne : ¬ (s.count + 1) % uint32_mod = 0 := by omega
    refine ⟨by simp [spinloop.wait, hn], ?_, ?_⟩ <;>
      simp [spinloop.wait, hn, hmod, hne] <;> omega
  · have heq : s.count + 1 = uint32_mod := by omega
    have hmod : (s.count + 1) % uint32_mod = 0 := by rw [heq]; exact Nat.mod_self _
    refine ⟨by simp [spinloop.wait, hn], ?_, ?_⟩
    · simp [spinloop.wait, hn, hmod]
    · simp [spinloop.wait, hn, hmod]
      norm_num [spinloop.yield_threshold, uint32_mod]

/-- After at least `yield_threshold` calls the counter stays at or above the
threshold and below 2^32. -/
theorem iterateWait_invariant (n : Nat) (h : spinloop.yield_threshold ≤ n) :
    spinloop.yield_threshold ≤ (iterateWait n).count ∧ (iterateWait n).count < uint32_mod := by
  induction n with
  | zero => simp [spinloop.yield_threshold] at h
  | succ m ih =>
      rcases Nat.lt_or_ge m spinloop.yield_threshold with hm | hm
      · have hle : m + 1 ≤ spinloop.yield_threshold := hm
        have hc := iterateWait_count_of_le (m + 1) hle
        refine ⟨by rw [hc]; exact h, ?_⟩
        rw [hc]
        exact Nat.lt_of_le_of_lt hle (by norm_num [spinloop.yield_threshold, uint32_mod])
      · obtain ⟨h1, h2⟩ := ih hm
        have hw := wait_yields_of_threshold_le (iterateWait m) h1 h2
        exact ⟨hw.2.1, hw.2.2⟩

/-! Claims. -/

/-- C1: for every sequence of callback registrations on an `inplace_stop_source`
followed by exactly one successful `request_stop()`, every registered callback
is invoked exactly once, and the invocations occur in
most-recently-registered-first (reverse-of-registration) order. -/
theorem request_stop_invokes_reverse_of_registration (regs : List Nat) (hnd : regs.Nodup) :
    ∃ s₁, registerAll inplace_stop_source.init regs = some s₁ ∧
      ∃ s₂ evs, s₁.request_stop = some (s₂, true, evs) ∧
        invokedList evs = regs.reverse ∧
        ∀ id ∈ regs, (invokedList evs).count id = 1 := by
  refine ⟨{ state := 0, callbacks := regs.reverse }, ?_, ?_⟩
  · simpa [inplace_stop_source.init] using registerAll_eq regs []
  · refine ⟨_, _, request_stop_of_state_zero _ rfl, ?_, ?_⟩
    · simpa using invokedList_broadcast regs.reverse
    · intro id hid
      have h1 : invokedList (broadcastEvents regs.reverse) = regs.reverse :=
        invokedList_broadcast regs.reverse
      simp only [h1, List.count_reverse]
      exact List.count_eq_one_of_mem hnd hid

theorem request_stop_invokes_reverse_of_registration_witness :
    ([1, 2, 3] : List Nat).Nodup ∧
      (∃ s₁, registerAll inplace_stop_source.init [1, 2, 3] = some s₁ ∧
        ∃ s₂ evs, s₁.request_stop = some (s₂, true, evs) ∧
          invokedList evs = ([1, 2, 3] : List Nat).reverse ∧
          ∀ id ∈ ([1, 2, 3] : List Nat), (invokedList evs).count id = 1) :=
  ⟨by decide, request_stop_invokes_reverse_of_registration [1, 2, 3] (by decide)⟩

/-- C2: the first `request_stop()` on a source returns `true`; every subsequent
call returns `false`, performs no callback invocations, and leaves the source's
state unchanged. -/
theorem request_stop_true_exactly_once (s : inplace_stop_source) (h : s.state = 0) :
    ∃ s₁ evs, s.request_stop = some (s₁, true, evs) ∧
      s₁.stop_requested = true ∧
      s₁.request_stop = some (s₁, false, []) ∧
      ∀ t : inplace_stop_source, t.stop_requested = true →
        t.request_stop = some (t, false, []) := by
  refine ⟨_, _, request_stop_of_state_zero s h, by decide, ?_, ?_⟩
  · exact request_stop_of_requested _ (by decide)
  · exact fun t ht => request_stop_of_requested t ht

theorem request_stop_true_exactly_once_witness :
    inplace_stop_source.init.state = 0 ∧
      (∃ s₁ evs, inplace_stop_source.init.request_stop = some (s₁, true, evs) ∧
        s₁.stop_requested = true ∧
        s₁.request_stop = some (s₁, false, []) ∧
        ∀ t : inplace_stop_source, t.stop_requested = true →
          t.request_stop = some (t, false, [])) :=
  ⟨rfl, request_stop_true_exactly_once inplace_stop_source.init rfl⟩

/-- C3: constructing an `inplace_stop_callback` from a token whose source has
already had `request_stop()` called invokes the stored closure synchronously,
inline, exactly once within the constructor (`try_add_callback` fails, the
node's source pointer is cleared), and destroying it afterwards performs no
further invocation and no deregistration. -/
theorem construct_on_stopped_source_invokes_inline (id : Nat) (s : inplace_stop_source)
    (h : s.stop_requested = true) :
    register_callback true id s = some (s, false, [id]) ∧
    callback_destructor false id s = some s := by
  have h' : ¬(s.state &&& stop_requested_flag = 0) := by
    simpa [inplace_stop_source.stop_requested] using h
  exact ⟨by simp [register_callback, inplace_stop_source.try_add_callback,
                  inplace_stop_source.try_lock, h'], rfl⟩

theorem construct_on_stopped_source_invokes_inline_witness :
    inplace_stop_source.stop_requested { state := 1, callbacks := [] } = true ∧
      (register_callback true 7 { state := 1, callbacks := [] } =
          some ({ state := 1, callbacks := [] }, false, [7]) ∧
        callback_destructor false 7 { state := 1, callbacks := [] } =
          some { state := 1, callbacks := [] }) :=
  ⟨by decide, construct_on_stopped_source_invokes_inline 7 { state := 1, callbacks := [] }
    (by decide)⟩

/-- C4: destroying an `inplace_stop_callback` before any stop request unlinks
its node from the source's callback list without invoking its closure, and a
`request_stop()` issued afterwards neither invokes that callback nor observes
its node in the list. -/
theorem destroy_before_stop_is_silent (regs : List Nat) (d : Nat)
    (hnd : regs.Nodup) (_hd : d ∈ regs) :
    ∃ s₁, registerAll inplace_stop_source.init regs = some s₁ ∧
      ∃ s₂, callback_destructor true d s₁ = some s₂ ∧
        s₂.callbacks = s₁.callbacks.erase d ∧ d ∉ s₂.callbacks ∧
        ∃ s₃ evs, s₂.request_stop = some (s₃, true, evs) ∧ d ∉ invokedList evs := by
  have hnot : d ∉ regs.reverse.erase d := (List.nodup_reverse.2 hnd).not_mem_erase
  refine ⟨{ state := 0, callbacks := regs.reverse }, ?_, ?_⟩
  · simpa [inplace_stop_source.init] using registerAll_eq regs []
  · refine ⟨{ state := 0, callbacks := regs.reverse.erase d }, ?_, rfl, hnot, ?_⟩
    · simp [callback_destructor,
            remove_callback_of_unlocked { state := 0, callbacks := regs.reverse } d
              (by simp [locked_flag])]
    · refine ⟨_, _, request_stop_of_state_zero _ rfl, ?_⟩
      simpa [invokedList_broadcast] using hnot

theorem destroy_before_stop_is_silent_witness :
    ([1, 2, 3] : List Nat).Nodup ∧ (2 : Nat) ∈ ([1, 2, 3] : List Nat) ∧
      (∃ s₁, registerAll inplace_stop_source.init [1, 2, 3] = some s₁ ∧
        ∃ s₂, callback_destructor true 2 s₁ = some s₂ ∧
          s₂.callbacks = s₁.callbacks.erase 2 ∧ 2 ∉ s₂.callbacks ∧
          ∃ s₃ evs, s₂.request_stop = some (s₃, true, evs) ∧ 2 ∉ invokedList evs) :=
  ⟨by decide, by decide, destroy_before_stop_is_silent [1, 2, 3] 2 (by decide) (by decide)⟩

/-- C5: during the `request_stop` broadcast loop a popped callback is never
invoked while the lock bit is held: the state word in effect at each `invoke`
event of the trace is exactly `stop_requested_flag` (whose lock bit is clear),
and the lock is re-acquired only after the invocation and the completed
bookkeeping. -/
theorem callback_invoked_outside_lock (s s' : inplace_stop_source) (evs : List Ev)
    (i c : Nat) (h : s.request_stop = some (s', true, evs))
    (hi : evs.get? i = some (Ev.invoke c)) :
    wordAt (locked_flag ||| stop_requested_flag) evs i = stop_requested_flag ∧
      stop_requested_flag &&& locked_flag = 0 ∧
      evs.get? (i + 1) = some (Ev.completed c) ∧
      evs.get? (i + 2) = some Ev.lockAcq := by
  have hevs := request_stop_success_trace s s' evs h
  subst hevs
  obtain ⟨hw, hc, hl⟩ := broadcast_invoke_unlocked s.callbacks i c hi
  exact ⟨hw, by decide, hc, hl⟩

theorem callback_invoked_outside_lock_witness :
    wordAt (locked_flag ||| stop_requested_flag) (broadcastEvents [5]) 1 =
        stop_requested_flag ∧
      stop_requested_flag &&& locked_flag = 0 ∧
      (broadcastEvents [5]).get? 2 = some (Ev.completed 5) ∧
      (broadcastEvents [5]).get? 3 = some Ev.lockAcq :=
  callback_invoked_outside_lock { state := 0, callbacks := [5] }
    { state := 1, callbacks := [] } (broadcastEvents [5]) 1 5 (by decide) (by decide)

/-- C6: a token obtained from a source on which stop has not been requested
reports `stop_possible() = true` and `stop_requested() = false`; after
`request_stop()` on that source the same token reports `stop_requested() = true`
and `stop_possible() = false`. -/
theorem token_observes_request_stop (s : inplace_stop_source) (h : s.state = 0) :
    inplace_stop_token.stop_possible true s = true ∧
      inplace_stop_token.stop_requested true s = false ∧
      ∃ s' evs, s.request_stop = some (s', true, evs) ∧
        inplace_stop_token.stop_requested true s' = true ∧
        inplace_stop_token.stop_possible true s' = false := by
  refine ⟨?_, ?_, _, _, request_stop_of_state_zero s h, by decide, by decide⟩
  · simp [inplace_stop_token.stop_possible, inplace_stop_source.stop_requested, h,
          stop_requested_flag]
  · simp [inplace_stop_token.stop_requested, inplace_stop_source.stop_requested, h,
          stop_requested_flag]

theorem token_observes_request_stop_witness :
    inplace_stop_source.init.state = 0 ∧
      (inplace_stop_token.stop_possible true inplace_stop_source.init = true ∧
        inplace_stop_token.stop_requested true inplace_stop_source.init = false ∧
        ∃ s' evs, inplace_stop_source.init.request_stop = some (s', true, evs) ∧
          inplace_stop_token.stop_requested true s' = true ∧
          inplace_stop_token.stop_possible true s' = false) :=
  ⟨rfl, token_observes_request_stop inplace_stop_source.init rfl⟩

/-- C7: a default-constructed (unassociated) token reports
`stop_possible() = false` and `stop_requested() = false` regardless of the state
of any source. -/
theorem unassociated_token_reports_false (s : inplace_stop_source) :
    inplace_stop_token.stop_possible false s = false ∧
      inplace_stop_token.stop_requested false s = false := by
  simp [inplace_stop_token.stop_possible, inplace_stop_token.stop_requested]

/-- C8: the `inplace_stop_source` destructor asserts that the lock bit is clear
and the callback list is empty; when every registered callback has been
destroyed and no lock is held, both assertions hold. -/
theorem destructor_assertions_hold (regs ds : List Nat) (hnd : regs.Nodup)
    (hp : ds.Perm regs) :
    ∃ s₁, registerAll inplace_stop_source.init regs = some s₁ ∧
      ∃ s₂, destroyAll s₁ ds = some s₂ ∧
        s₂.destructor_asserts = true ∧ s₂.state &&& locked_flag = 0 ∧
        s₂.callbacks = [] := by
  refine ⟨{ state := 0, callbacks := regs.reverse }, ?_, ?_⟩
  · simpa [inplace_stop_source.init] using registerAll_eq regs []
  · have hperm : ds.Perm regs.reverse := hp.trans (List.reverse_perm regs).symm
    have hempty := foldl_erase_of_perm ds regs.reverse (List.nodup_reverse.2 hnd) hperm
    refine ⟨{ state := 0, callbacks := [] }, ?_, by decide, by decide, rfl⟩
    simpa [hempty] using destroyAll_eq ds regs.reverse

theorem destructor_assertions_hold_witness :
    ([1, 2] : List Nat).Nodup ∧ ([2, 1] : List Nat).Perm [1, 2] ∧
      (∃ s₁, registerAll inplace_stop_source.init [1, 2] = some s₁ ∧
        ∃ s₂, destroyAll s₁ [2, 1] = some s₂ ∧
          s₂.destructor_asserts = true ∧ s₂.state &&& locked_flag = 0 ∧
          s₂.callbacks = []) :=
  ⟨by decide, by decide, destructor_assertions_hold [1, 2] [2, 1] (by decide) (by decide)⟩

/-- C9: `spinloop::wait()` performs no yield on each of the first
`yield_threshold` (20) calls on a given spinloop instance, and yields on every
call after the threshold is reached. -/
theorem spinloop_wait_yields_after_threshold (n : Nat) :
    (n < spinloop.yield_threshold → (iterateWait n).wait.2 = false) ∧
    (spinloop.yield_threshold ≤ n → (iterateWait n).wait.2 = true) := by
  constructor
  · intro h
    have hc : (iterateWait n).count = n := iterateWait_count_of_le n (Nat.le_of_lt h)
    simp [spinloop.wait, hc, h]
  · intro h
    obtain ⟨h1, h2⟩ := iterateWait_invariant n h
    exact (wait_yields_of_threshold_le _ h1 h2).1

theorem spinloop_wait_yields_after_threshold_witness :
    (3 < spinloop.yield_threshold ∧ (iterateWait 3).wait.2 = false) ∧
      (spinloop.yield_threshold ≤ 25 ∧ (iterateWait 25).wait.2 = true) :=
  ⟨⟨by decide, (spinloop_wait_yields_after_threshold 3).1 (by decide)⟩,
   ⟨by decide, (spinloop_wait_yields_after_threshold 25).2 (by decide)⟩⟩

/-- C10: for every token and every observable source state, `stop_possible()`
and `stop_requested()` are never both true, and both are false exactly when the
token is unassociated. -/
theorem token_predicates_mutually_exclusive (assoc : Bool) (s : inplace_stop_source) :
    ¬(inplace_stop_token.stop_possible assoc s = true ∧
        inplace_stop_token.stop_requested assoc s = true) ∧
      ((inplace_stop_token.stop_possible assoc s = false ∧
          inplace_stop_token.stop_requested assoc s = false) ↔ assoc = false) := by
  cases assoc <;>
    cases hreq : s.stop_requested <;>
      simp [inplace_stop_token.stop_possible, inplace_stop_token.stop_requested, hreq]

end mtc
